import Mathlib

/-
  Shallow embedding of the pelilauta-crawler web mirroring tool.

  The repository contains two near-duplicate variants of the crawler:
  * the simple variant (`src/webCrawler.ts`, compiled copy `src/webCrawler.js`):
    `.mdx` extension, no page ceiling, no ignore list, images rewritten via an
    async `each` callback, no anchor rewriting, and a final `fs.writeFile` of
    `$.html()` after an earlier write of the turndown Markdown;
  * the richer variant (`src/unnamed/part_000`): `.md` extension, `maxPages`
    ceiling, `ignorePatterns` filter, sequential `for` loops over images and
    anchors, `toMekanismiURI` based normalisation, and a single write of the
    Markdown produced by `elementToMDX`.

  Both variants are embedded below: namespace `Simple` models
  `src/webCrawler.ts`, namespace `Rich` models `src/unnamed/part_000`.
  HTML documents are modelled as lists of image and anchor elements (the only
  parts either variant inspects); the external turndown and cheerio libraries
  are modelled symbolically by the `PageContent` constructors, which record the
  provenance of every byte string written to a page file.  The network is an
  oracle passed in through `Rich.Config`.
-/

namespace Crawler

/-- Predicate `beginsWith needle hay`: `needle` is a prefix of `hay`
    (JS `String.prototype.startsWith`, on character lists). -/
def beginsWith : List Char → List Char → Bool
  | [], _ => true
  | _ :: _, [] => false
  | a :: as, b :: bs => a == b && beginsWith as bs

/-- Predicate `containsSeq needle hay`: `needle` occurs as a contiguous subsequence of
    `hay` (JS `String.prototype.includes`, on character lists). -/
def containsSeq (needle : List Char) : List Char → Bool
  | [] => needle.isEmpty
  | c :: rest => beginsWith needle (c :: rest) || containsSeq needle rest

/-- JS `s.includes(pat)`. -/
def includesStr (s pat : String) : Bool := containsSeq pat.data s.data

/-- JS `s.startsWith(pre)`. -/
def strStartsWith (s pre : String) : Bool := beginsWith pre.data s.data

/-- Drop every trailing occurrence of `c`. -/
def dropTrailing (c : Char) (l : List Char) : List Char :=
  (l.reverse.dropWhile (· == c)).reverse

/-- Node `path.basename` (posix): strip trailing separators, then return the
    portion after the last separator. -/
def basename (s : String) : String :=
  let t := dropTrailing '/' s.data
  String.mk ((t.reverse.takeWhile (fun c => c ≠ '/')).reverse)

/-- Node `path.dirname` (posix, simplified): the portion before the last
    separator, `"."` when there is none. -/
def dirname (p : String) : String :=
  let r := p.data.reverse
  let rest := r.dropWhile (fun c => c ≠ '/')
  match rest with
  | [] => "."
  | _ :: tl => if tl.isEmpty then "/" else String.mk tl.reverse

/-- Node `path.join` for one separator-free right component. -/
def pathJoin (a b : String) : String := a ++ "/" ++ b

/-- JS `s.endsWith('-')` on character lists. -/
def endsWithDash : List Char → Bool
  | [] => false
  | [c] => c == '-'
  | _ :: b :: rest => endsWithDash (b :: rest)

/-- Whether `l` contains two adjacent `'-'` characters (`s.includes('--')`). -/
def hasDoubleDash : List Char → Bool
  | [] => false
  | [_] => false
  | a :: b :: rest => (a == '-' && b == '-') || hasDoubleDash (b :: rest)

/-- JS `Set.prototype.add` on an insertion-ordered duplicate-free list. -/
def setInsert (s : String) (l : List String) : List String :=
  if l.contains s then l else l ++ [s]

/-- One HTML attribute: name and value.  parse5 (cheerio's parser) keeps an
    element's attributes in document order and drops duplicate names, so an
    attribute list has the source document's order and one entry per name. -/
structure HtmlAttr where
  name : String
  value : String
deriving DecidableEq

/-- Cheerio's `$(el).attr(n)`: the value of the first attribute named `n`. -/
def getAttr : List HtmlAttr → String → Option String
  | [], _ => none
  | a :: rest, n => if a.name == n then some a.value else getAttr rest n

/-- An `<img>` element: its attributes in document order. -/
structure ImgEl where
  attrs : List HtmlAttr
deriving DecidableEq

/-- The element's `src` attribute, absent = `undefined`
    (`$(element).attr('src')`). -/
def ImgEl.src (img : ImgEl) : Option String := getAttr img.attrs "src"

/-- An `<a>` element: its attributes in document order. -/
structure AnchorEl where
  attrs : List HtmlAttr
deriving DecidableEq

/-- The element's `href` attribute, absent = `undefined`
    (`$(element).attr('href')`). -/
def AnchorEl.href (a : AnchorEl) : Option String := getAttr a.attrs "href"

/-- JS `hay.replace(needle, repl)` for a plain-string pattern: replace the
    first occurrence of `needle` only. -/
def replaceFirst (needle repl : List Char) : List Char → List Char
  | [] => if beginsWith needle [] then repl else []
  | c :: rest =>
    if beginsWith needle (c :: rest) then repl ++ (c :: rest).drop needle.length
    else c :: replaceFirst needle repl rest

/-- The element-level effect of `tag.replace(url, filename)` followed by
    `replaceWith` (simple variant lines 56-58; richer variant lines 104-106
    for images and 131-133 for anchors).  The serialized element is the tag
    head, then the attributes in document order, then any content; a URL
    cannot occur inside the tag head or a serialized attribute name (both
    exclude `/`), and the guarded `src`/`href` value contains the whole URL,
    so the first occurrence of the URL always lies inside the value of the
    first attribute (in document order) whose value contains it — which need
    not be the `src`/`href` attribute itself.  That one occurrence is
    replaced.  Occurrences spanning a value boundary, and the serializer's
    entity escaping of `&` and quotes (which makes the replace a no-op for a
    URL containing them), are below this model's granularity. -/
def rewriteAttrs (url repl : String) : List HtmlAttr → List HtmlAttr
  | [] => []
  | a :: rest =>
    if includesStr a.value url then
      { a with value := String.mk (replaceFirst url.data repl.data a.value.data) } :: rest
    else a :: rewriteAttrs url repl rest

/-- A parsed HTML document, restricted to the element collections the crawler
    inspects (`$('img')` and `$('a')`, in document order). -/
structure Doc where
  imgs : List ImgEl
  anchors : List AnchorEl
deriving DecidableEq

/-- Provenance of a byte string written to a page file.
    `markdownOf d scope` is the Markdown produced by the HTML-to-Markdown
    transformation (turndown plus, in the richer variant, the image-title
    regex pass) applied to the serialisation of `d`, scoped to the element
    selector `scope` (`none` = the whole document, as in the simple variant;
    the richer variant's `elementToMDX` defaults the scope to `body`).
    `htmlOf d` is the raw cheerio serialisation `$.html()` of `d`.
    The external libraries are modelled symbolically by these constructors. -/
inductive PageContent where
  | markdownOf (d : Doc) (scope : Option String)
  | htmlOf (d : Doc)
deriving DecidableEq

/-- The written content is Markdown produced by the HTML-to-Markdown
    transformation (as opposed to a raw HTML serialisation). -/
def PageContent.isMarkdown : PageContent → Bool
  | .markdownOf _ _ => true
  | .htmlOf _ => false

/-- A character that terminates the host portion of a URL. -/
def hostEnd (c : Char) : Bool := c == '/' || c == '?' || c == '#'

/-- A character that terminates the pathname portion of a URL. -/
def pathEnd (c : Char) : Bool := c == '?' || c == '#'

/-- Pathname of the authority-plus-path part that follows `scheme://`. -/
def parsePathFromRest (rest : List Char) : Option String :=
  let host := rest.takeWhile (fun c => !hostEnd c)
  if host.isEmpty then none
  else
    let p := (rest.drop host.length).takeWhile (fun c => !pathEnd c)
    some (if p.isEmpty then "/" else String.mk p)

/-- Function `extractLocalPathFromUrl` (both variants): `new URL(url).pathname`, with
    parse failure logged and returned as `null`.  The WHATWG parser is modelled
    for absolute `http(s)` URLs; every other input throws in the source and is
    `none` here. -/
def extractLocalPathFromUrl (url : String) : Option String :=
  if strStartsWith url "https://" then parsePathFromRest (url.data.drop 8)
  else if strStartsWith url "http://" then parsePathFromRest (url.data.drop 7)
  else none

/-- The crawl's link test `link.match(new RegExp("^https?://(www\\.)?" + domain))`
    (both variants).  The unescaped `.` characters of the interpolated domain
    are regex wildcards in the source; they are modelled as literal
    characters. -/
def matchesDomainRegex (domain link : String) : Bool :=
  strStartsWith link ("http://" ++ domain) ||
  strStartsWith link ("http://www." ++ domain) ||
  strStartsWith link ("https://" ++ domain) ||
  strStartsWith link ("https://www." ++ domain)

/-- The absolutisation `link.startsWith('http') ? link : "https://" + link` (both variants). -/
def absolutize (link : String) : String :=
  if strStartsWith link "http" then link else "https://" ++ link

namespace Simple

/-- The character class `[a-zA-Z]` of the simple variant's sanitiser. -/
def allowedChar (c : Char) : Bool :=
  ('a' ≤ c && c ≤ 'z') || ('A' ≤ c && c ≤ 'Z')

/-- The replacement of the leading and trailing dash runs by nothing: remove the leading and the trailing run of
    dashes. -/
def stripDashEnds (l : List Char) : List Char :=
  dropTrailing '-' (l.dropWhile (· == '-'))

/-- The global `-+` to `-` replacement: collapse each maximal run of dashes
    to one dash (all dashes of a run but the last are dropped). -/
def collapseDashes : List Char → List Char
  | [] => []
  | [a] => [a]
  | a :: b :: rest =>
    if a = '-' ∧ b = '-' then collapseDashes (b :: rest)
    else a :: collapseDashes (b :: rest)

/-- Function `pathSegmentToFilename` of `src/webCrawler.ts` (lines 97-112): dash
    cleanup of the raw path, then replacement of non-letters by dashes, the
    `index` fallback for an empty result, and removal of one leading and one
    trailing dash. -/
def pathSegmentToFilename (pathSegment : String) : String :=
  let cleanedPath := collapseDashes (stripDashEnds pathSegment.data)
  let sanitizedPath := cleanedPath.map (fun c => if allowedChar c then c else '-')
  if sanitizedPath.length = 0 then "index"
  else
    let s1 := if beginsWith ['-'] sanitizedPath then sanitizedPath.tail else sanitizedPath
    let s2 := if endsWithDash s1 then s1.dropLast else s1
    String.mk s2

/-- Observable effects of one run of the simple variant's stream `end`
    handler (`src/webCrawler.ts` lines 36-64). -/
structure Run where
  files : List (String × PageContent)
  imageGets : List String
  imageDownloads : List String
deriving DecidableEq

/-- The synchronous part of one `$('img').each` callback: an image whose
    source is already in the download set is rewritten to its basename before
    the enclosing function continues; a new image's callback suspends inside
    `downloadImage` before reaching its `replaceWith`, so that image is still
    unrewritten when `$.html()` is read at line 63. -/
def rewriteImgSync (downloaded : List String) (img : ImgEl) : ImgEl :=
  match img.src with
  | some s =>
    if s ≠ "" && downloaded.contains s then
      { attrs := rewriteAttrs s (basename s) img.attrs }
    else img
  | none => img

/-- The image GETs issued during the synchronous phase of the `each` loop:
    every occurrence of a truthy `src` tests membership against the download
    set as it was when the loop started, because each callback's
    `imageDownloads.add` only runs after its `await downloadImage` resolves,
    which is after every callback has run its synchronous prefix. -/
def imageGetsStarted (downloaded : List String) (imgs : List ImgEl) : List String :=
  (imgs.filterMap (·.src)).filter (fun s => s ≠ "" && !downloaded.contains s)

/-- The filename stem the simple variant's `crawl` computes for a URL:
    `pathSegmentToFilename(extractLocalPathFromUrl(url) || '')`. -/
def normalizeStem (url : String) : String :=
  pathSegmentToFilename ((extractLocalPathFromUrl url).getD "")

/-- Value `pageFileName` in the simple variant's `crawl` (line 116): the stem plus
    the fixed `.mdx` extension. -/
def fnameOf (url : String) : String := normalizeStem url ++ ".mdx"

/-- The simple variant's stream `end` handler under the JS event loop, given
    the `imageDownloads` set at entry:
    1. line 42 writes the turndown Markdown of the unrewritten document;
    2. `$('img').each(async ...)` runs every callback's synchronous prefix,
       starting one `downloadImage` GET per not-yet-downloaded `src`
       occurrence (duplicates included) and rewriting only the already
       downloaded images;
    3. line 63 writes `$.html()` — the HTML serialisation — to the same file;
    4. the suspended callbacks then resume and perform their (idempotent)
       `imageDownloads.add`; their late `replaceWith` rewrites mutate only the
       in-memory document and never reach the file. -/
def downloadAndSavePageEnd (downloaded : List String) (filename : String) (d : Doc) : Run :=
  let gets := imageGetsStarted downloaded d.imgs
  let d2 : Doc := { d with imgs := d.imgs.map (rewriteImgSync downloaded) }
  { files := [(filename, PageContent.markdownOf d none), (filename, PageContent.htmlOf d2)]
    imageGets := gets
    imageDownloads := gets.foldl (fun acc s => setInsert s acc) downloaded }

end Simple

namespace Rich

/-- The hard ceiling on distinct visited pages (`maxPages`, line 11). -/
def maxPages : Nat := 1000000

/-- Constant `ignorePatterns` (lines 14-29): filenames containing any of these
    substrings are marked visited and skipped. -/
def ignorePatterns : List String :=
  ["Admin", "MyPages", "PassWord", "MyChanges", "SandBox", "Search",
   "-revisions", "-showcode", "-raw", "Spam", "MySQL", "-edit", "-history",
   "-backlinks"]

/-- The characters kept by `toMekanismiURI`: the complement of the unicode
    regex class `[^a-öA-Ö0-9]`, i.e. the codepoint ranges `a`(97)..`ö`(246),
    `A`(65)..`Ö`(214) and the digits. -/
def allowedChar (c : Char) : Bool :=
  (65 ≤ c.toNat && c.toNat ≤ 214) || (97 ≤ c.toNat && c.toNat ≤ 246) ||
  (48 ≤ c.toNat && c.toNat ≤ 57)

/-- One pass of `r.split('--').join('-')`: each non-overlapping occurrence of
    two adjacent dashes (scanned left to right) becomes one dash. -/
def replacePairs : List Char → List Char
  | [] => []
  | [a] => [a]
  | a :: b :: rest =>
    if a = '-' ∧ b = '-' then '-' :: replacePairs rest
    else a :: replacePairs (b :: rest)

/-- Fuel-indexed form of the `while (r.includes('--'))` loop: each pass
    strictly shortens the list, so `l.length` passes always reach the
    fixpoint. -/
def collapseLoopFuel : Nat → List Char → List Char
  | 0, l => l
  | n + 1, l => if hasDoubleDash l then collapseLoopFuel n (replacePairs l) else l

/-- The `while (r.includes('--'))` loop of `toMekanismiURI`: repeat the
    split-join pass until no two dashes are adjacent. -/
def collapseLoop (l : List Char) : List Char := collapseLoopFuel l.length l

/-- Function `toMekanismiURI` (lines 176-190): replace every character outside the
    allowed class by a dash, collapse adjacent dashes via the split-join loop,
    then remove one trailing dash. -/
def toMekanismiURI (s : String) : String :=
  let r0 := s.data.map (fun c => if allowedChar c then c else '-')
  let r1 := collapseLoop r0
  let r2 := if endsWithDash r1 then r1.dropLast else r1
  String.mk r2

/-- Function `pathSegmentToFilename` of `src/unnamed/part_000` (lines 192-209):
    `toMekanismiURI`, the `index` fallback for an empty or lone-dash result,
    then removal of one leading and one trailing dash. -/
def pathSegmentToFilename (pathSegment : String) : String :=
  let sp := (toMekanismiURI pathSegment).data
  if sp.length = 0 ∨ sp = ['-'] then "index"
  else
    let s1 := if beginsWith ['-'] sp then sp.tail else sp
    let s2 := if endsWithDash s1 then s1.dropLast else s1
    String.mk s2

/-- The filename stem the crawl computes for a URL:
    `pathSegmentToFilename(extractLocalPathFromUrl(url) || '')`. -/
def normalizeStem (url : String) : String :=
  pathSegmentToFilename ((extractLocalPathFromUrl url).getD "")

/-- Value `pageFileName` in `crawl` (line 217): the stem plus the fixed `.md`
    extension. -/
def fnameOf (url : String) : String := normalizeStem url ++ ".md"

/-- Run configuration: the CLI options plus the network, modelled as oracles.
    `net url = some d` is a successful page GET returning the document `d`;
    `net url = none` is a network/HTTP failure (an `axios` rejection).
    `imgNet url` tells whether an image GET succeeds.  `maxPages` is the
    hard-coded constant in the source; it is a field here so the ceiling
    behaviour can be exercised, and the program's value is `maxPages`
    above. -/
structure Config where
  domain : String
  root : Option String
  maxPages : Nat
  net : String → Option Doc
  imgNet : String → Bool

/-- The mutable state of one crawl run, together with event logs that record
    every externally observable action.
    `visited` is `visitedPages` and `imageDownloads` is the set of the same
    name, both as insertion-ordered duplicate-free lists.  `pageGets` and
    `imageGets` log every HTTP GET issued for pages and images (attempts,
    duplicates included).  `transforms` logs, per invocation, the page
    filename for which the fetch-and-transform step (`downloadAndSavePage`)
    was entered.  `files` logs page-file writes in order; `imageFiles` logs
    image-file writes; `errors` logs `console.error` lines. -/
structure CrawlState where
  visited : List String
  imageDownloads : List String
  pageGets : List String
  imageGets : List String
  transforms : List String
  files : List (String × PageContent)
  imageFiles : List String
  errors : List String
deriving DecidableEq

/-- The state at process start: both sets empty, nothing logged. -/
def initState : CrawlState :=
  { visited := [], imageDownloads := [], pageGets := [], imageGets := [],
    transforms := [], files := [], imageFiles := [], errors := [] }

/-- Function `downloadImage` (lines 150-164): GET the image and stream it to disk; a
    failure is caught and logged, never thrown. -/
def downloadImage (cfg : Config) (st : CrawlState) (url filename : String) : CrawlState :=
  if cfg.imgNet url then
    { st with imageGets := st.imageGets ++ [url],
              imageFiles := st.imageFiles ++ [filename] }
  else
    { st with imageGets := st.imageGets ++ [url],
              errors := st.errors ++ ["Failed to download image " ++ url] }

/-- One iteration of the image `for` loop (lines 93-118): skip a falsy
    `src`; otherwise download the image unless its source URL is already in
    `imageDownloads`, add it to the set, and rewrite the element's source to
    the basename.  The class-caption insertion (lines 108-116) only edits
    document text next to the image and is not modelled.  In the source the
    `add` runs after the awaited `downloadImage` returns (also on a failed,
    caught download), which this sequential loop preserves. -/
def processImage (cfg : Config) (pageFilename : String)
    (acc : CrawlState × List ImgEl) (img : ImgEl) : CrawlState × List ImgEl :=
  match img.src with
  | none => (acc.1, acc.2 ++ [img])
  | some s =>
    if s = "" then (acc.1, acc.2 ++ [img])
    else
      let imgFilename := basename s
      let localImgPath := pathJoin (dirname pageFilename) imgFilename
      let st :=
        if acc.1.imageDownloads.contains s then acc.1
        else
          let st' := downloadImage cfg acc.1 s localImgPath
          { st' with imageDownloads := st'.imageDownloads ++ [s] }
      (st, acc.2 ++ [{ attrs := rewriteAttrs s imgFilename img.attrs }])

/-- The whole image loop, in document order. -/
def processImages (cfg : Config) (pageFilename : String) (st : CrawlState)
    (imgs : List ImgEl) : CrawlState × List ImgEl :=
  imgs.foldl (processImage cfg pageFilename) (st, [])

/-- One iteration of the anchor `for` loop (lines 121-136): for an anchor
    whose truthy `href` contains the domain and parses as a URL, the first
    occurrence of the URL in the serialized element is replaced by the local
    Markdown filename (see `rewriteAttrs`; the computed `localLinkPath` is
    unused in the source — the `replace` uses `linkFilename`). -/
def rewriteLink (domain : String) (a : AnchorEl) : AnchorEl :=
  match a.href with
  | none => a
  | some link =>
    if link != "" && includesStr link domain then
      match extractLocalPathFromUrl link with
      | some linkPath =>
        { attrs := rewriteAttrs link (pathSegmentToFilename linkPath ++ ".md") a.attrs }
      | none => a
    else a

/-- Function `elementToMDX` (lines 56-74): scope the document to the root element
    (default `body`), convert with turndown and post-process image titles.
    The conversion itself is external and represented symbolically. -/
def elementToMDX (d : Doc) (rootElement : Option String) : PageContent :=
  PageContent.markdownOf d (some (rootElement.getD "body"))

/-- Function `downloadAndSavePage` (lines 76-148), with the stream `end`
    handler run to completion in place: GET the page (failures caught and
    logged), run the image loop, run the anchor loop, convert the rewritten
    document with `elementToMDX`, and write the Markdown to the page file
    once.  In the source the promise resolves as soon as the handlers are
    attached, so the `end` handlers of concurrently crawled pages can
    interleave at the handlers' `await`s; `imagePairInterleaved` below models
    that interleaving where it is observable (the image check-and-insert).
    No claim proved on this sequential composition depends on the
    serialisation: the visited-set check-and-insert in `crawl` is synchronous
    in the source, the failure statements are per-call equations, and the
    image-download statements are per-handler. -/
def downloadAndSavePage (cfg : Config) (st : CrawlState) (url filename : String) :
    CrawlState :=
  let stg := { st with pageGets := st.pageGets ++ [url] }
  match cfg.net url with
  | none => { stg with errors := stg.errors ++ ["Failed to download and save " ++ url] }
  | some d =>
    let pr := processImages cfg filename stg d.imgs
    let d2 : Doc := { imgs := pr.2, anchors := d.anchors.map (rewriteLink cfg.domain) }
    { pr.1 with files := pr.1.files ++ [(filename, elementToMDX d2 cfg.root)] }

/-- The `$('a').each` loop of `crawl` (lines 242-248), abstracted over the
    recursive call: each href matching the domain regex is absolutised and
    crawled with the results folder as destination. -/
def crawlChildren (cfg : Config) (recurse : CrawlState → String → CrawlState)
    (links : List String) (st : CrawlState) : CrawlState :=
  links.foldl
    (fun s link =>
      if matchesDomainRegex cfg.domain link then recurse s (absolutize link) else s)
    st

/-- The discovery step of `crawl` (lines 235-252): re-GET the page (failures
    caught and logged), then walk its anchors. -/
def crawlDiscover (cfg : Config) (recurse : CrawlState → String → CrawlState)
    (st : CrawlState) (url : String) : CrawlState :=
  let stg := { st with pageGets := st.pageGets ++ [url] }
  match cfg.net url with
  | none => { stg with errors := stg.errors ++ ["Failed to crawl " ++ url] }
  | some d => crawlChildren cfg recurse (d.anchors.filterMap (·.href)) stg

/-- Function `crawl` (lines 211-254), fuel-indexed to bound the recursion depth:
    ceiling check, filename computation, dedup check with a synchronous
    check-and-insert, ignore filter (which marks visited and returns), then
    fetch-and-transform and discovery.  The `transforms` log entry marks the
    single fetch-and-transform invocation for the filename. -/
def crawl (cfg : Config) : Nat → String → CrawlState → String → CrawlState
  | 0, _, st, _ => st
  | n + 1, baseFolder, st, url =>
    if cfg.maxPages ≤ st.visited.length then st
    else if st.visited.contains (fnameOf url) then st
    else
      let pageFileName := fnameOf url
      let st1 := { st with visited := st.visited ++ [pageFileName] }
      if ignorePatterns.any (fun pat => includesStr pageFileName pat) then st1
      else
        let st2 := { st1 with transforms := st1.transforms ++ [pageFileName] }
        let st3 := downloadAndSavePage cfg st2 url (pathJoin baseFolder pageFileName)
        crawlDiscover cfg (crawl cfg n (pathJoin "results" cfg.domain)) st3 url

/-- The event-loop interleaving of the stream `end` handlers of two
    concurrently crawled pages of the richer variant, each containing one
    image, with source URLs `sA` and `sB` and download set `downloaded0` when
    the first handler starts.  `downloadAndSavePage` resolves as soon as the
    handlers are attached (line 86), and the anchor loop driving the
    recursion (lines 242-248) does not await its async callbacks, so both
    pages' responses are in flight together and each handler runs when its
    response ends.  A handler's image loop tests `imageDownloads.has(imgSrc)`
    (line 99) synchronously and suspends at `await downloadImage(...)` (line
    100) before `imageDownloads.add(imgSrc)` (line 101) runs; with handler A
    suspended at its await, handler B's membership test still sees the set
    without A's URL.  Returned: the image GET log (A's then B's) and the
    final download set after both handlers resume and run their adds. -/
def imagePairInterleaved (downloaded0 : List String) (sA sB : String) :
    List String × List String :=
  let getsA := if downloaded0.contains sA then [] else [sA]
  let getsB := if downloaded0.contains sB then [] else [sB]
  let d1 := if downloaded0.contains sA then downloaded0 else setInsert sA downloaded0
  let d2 := if downloaded0.contains sB then d1 else setInsert sB d1
  (getsA ++ getsB, d2)

/-- The collapsed (pre-trailing-strip) character list inside
    `toMekanismiURI`. -/
def tmLoop (s : String) : List Char :=
  collapseLoop (s.data.map (fun c => if allowedChar c then c else '-'))

/-- The leading/trailing dash removal at the end of `pathSegmentToFilename`. -/
def psfStrip (sp : List Char) : List Char :=
  let s1 := if beginsWith ['-'] sp then sp.tail else sp
  if endsWithDash s1 then s1.dropLast else s1

/-- C6's invariant: the fetch-and-transform log has no duplicate filename,
    and every logged filename is already in the visited set. -/
def InvTrans (st : CrawlState) : Prop :=
  st.transforms.Nodup ∧ ∀ f ∈ st.transforms, f ∈ st.visited

end Rich

/-! ### Concrete documents and configurations used by the claim theorems -/

/-- A page whose only content is one same-domain anchor carrying no
    attribute besides the href. -/
def fooBarDoc : Doc :=
  { imgs := [], anchors := [{ attrs := [⟨"href", "https://example.com/Foo-Bar"⟩] }] }

/-- An empty page. -/
def plainDoc : Doc := { imgs := [], anchors := [] }

/-- Network: the root page is `fooBarDoc`, the `Foo-Bar` page is empty,
    everything else fails. -/
def exNet : String → Option Doc := fun u =>
  if u = "https://example.com" then some fooBarDoc
  else if u = "https://example.com/Foo-Bar" then some plainDoc
  else none

/-- A run against `exNet` with the source's `maxPages` and no `--root`. -/
def exCfg : Rich.Config :=
  { domain := "example.com", root := none, maxPages := Rich.maxPages,
    net := exNet, imgNet := fun _ => true }

/-- Network: only the root page exists and is empty. -/
def plainNet : String → Option Doc := fun u =>
  if u = "https://example.com" then some plainDoc else none

/-- A run against `plainNet`. -/
def plainCfg : Rich.Config :=
  { domain := "example.com", root := none, maxPages := Rich.maxPages,
    net := plainNet, imgNet := fun _ => true }

/-- A page containing the same image source URL twice. -/
def dupImgDoc : Doc :=
  { imgs := [{ attrs := [⟨"src", "https://example.com/a.png"⟩] },
             { attrs := [⟨"src", "https://example.com/a.png"⟩] }],
    anchors := [] }

/-- A state in which `https://example.com/a.png` is already in the image
    download set. -/
def preSt : Rich.CrawlState :=
  { Rich.initState with imageDownloads := ["https://example.com/a.png"] }

/-- A network where every GET fails. -/
def failNet : String → Option Doc := fun _ => none

/-- A run where every page and image GET fails. -/
def failCfg : Rich.Config :=
  { domain := "example.com", root := none, maxPages := Rich.maxPages,
    net := failNet, imgNet := fun _ => false }

/-- A failing-network run with a small page ceiling. -/
def smallCfg : Rich.Config :=
  { domain := "example.com", root := none, maxPages := 5,
    net := failNet, imgNet := fun _ => false }

/-- A failing-network run whose ceiling of one page is already reached by
    `visitedSt`. -/
def oneCfg : Rich.Config :=
  { domain := "example.com", root := none, maxPages := 1,
    net := failNet, imgNet := fun _ => false }

/-- A state in which the root page's filename has already been visited. -/
def visitedSt : Rich.CrawlState :=
  { Rich.initState with visited := ["index.md"] }

/-! ### String and list lemmas -/

theorem begins_dash_iff (l : List Char) :
    beginsWith ['-'] l = true ↔ ∃ t, l = '-' :: t := by
  cases l with
  | nil => simp [beginsWith]
  | cons a t =>
    simp only [beginsWith, Bool.and_eq_true, beq_iff_eq]
    constructor
    · rintro ⟨rfl, -⟩; exact ⟨t, rfl⟩
    · rintro ⟨t', ht⟩
      cases ht
      exact ⟨rfl, by simp [beginsWith]⟩

theorem endsWithDash_cons (a : Char) (t : List Char) (h : t ≠ []) :
    endsWithDash (a :: t) = endsWithDash t := by
  cases t with
  | nil => exact absurd rfl h
  | cons b r => rfl

theorem hasDoubleDash_cons_cons (a b : Char) (r : List Char) :
    hasDoubleDash (a :: b :: r) = ((a == '-' && b == '-') || hasDoubleDash (b :: r)) := rfl

/-! ### Shape of the richer variant's normaliser output -/

namespace Rich

theorem replacePairs_length_le : ∀ l : List Char, (replacePairs l).length ≤ l.length
  | [] => by simp [replacePairs]
  | [a] => by simp [replacePairs]
  | a :: b :: rest => by
    by_cases h : a = '-' ∧ b = '-'
    · have hr := replacePairs_length_le rest
      simp only [replacePairs, if_pos h, List.length_cons]
      omega
    · have hr := replacePairs_length_le (b :: rest)
      simp only [replacePairs, if_neg h, List.length_cons] at hr ⊢
      omega
termination_by l => l.length

theorem replacePairs_length_lt :
    ∀ l : List Char, hasDoubleDash l = true → (replacePairs l).length < l.length
  | [], h => by simp [hasDoubleDash] at h
  | [a], h' => by simp [hasDoubleDash] at h'
  | a :: b :: rest, h => by
    by_cases hd : a = '-' ∧ b = '-'
    · have hr := replacePairs_length_le rest
      simp only [replacePairs, if_pos hd, List.length_cons]
      omega
    · have hdd : hasDoubleDash (b :: rest) = true := by
        simp only [hasDoubleDash, Bool.or_eq_true, Bool.and_eq_true, beq_iff_eq] at h
        rcases h with ⟨h1, h2⟩ | h
        · exact absurd ⟨h1, h2⟩ hd
        · exact h
      have := replacePairs_length_lt (b :: rest) hdd
      simp only [replacePairs, if_neg hd, List.length_cons] at this ⊢
      omega
termination_by l => l.length

theorem collapseLoopFuel_congr :
    ∀ m n (l : List Char), l.length ≤ m → l.length ≤ n →
      collapseLoopFuel m l = collapseLoopFuel n l := by
  intro m
  induction m with
  | zero =>
    intro n l hm _
    have : l = [] := List.length_eq_zero.mp (Nat.le_zero.mp hm)
    subst this
    cases n with
    | zero => rfl
    | succ n => simp [collapseLoopFuel, hasDoubleDash]
  | succ m ih =>
    intro n l hm hn
    cases n with
    | zero =>
      have : l = [] := List.length_eq_zero.mp (Nat.le_zero.mp hn)
      subst this
      simp [collapseLoopFuel, hasDoubleDash]
    | succ n =>
      simp only [collapseLoopFuel]
      by_cases h : hasDoubleDash l = true
      · simp only [h, if_true]
        have hlt := replacePairs_length_lt l h
        exact ih n (replacePairs l) (by omega) (by omega)
      · simp [h]

/-- The loop really is a fixpoint iteration: one unfolding step. -/
theorem collapseLoop_eq (l : List Char) :
    collapseLoop l = if hasDoubleDash l = true then collapseLoop (replacePairs l) else l := by
  unfold collapseLoop
  cases hl : l with
  | nil => simp [collapseLoopFuel, hasDoubleDash]
  | cons a t =>
    simp only [List.length_cons, collapseLoopFuel]
    by_cases h : hasDoubleDash (a :: t) = true
    · simp only [h, if_true]
      have hlt := replacePairs_length_lt (a :: t) h
      exact collapseLoopFuel_congr t.length (replacePairs (a :: t)).length
        (replacePairs (a :: t)) (by simpa using Nat.lt_succ_iff.mp (by simpa using hlt)) le_rfl
    · simp [h]

theorem replacePairs_subset : ∀ (l : List Char), ∀ c ∈ replacePairs l, c ∈ l
  | [] => by simp [replacePairs]
  | [a] => by simp [replacePairs]
  | a :: b :: rest => by
    intro c hc
    by_cases h : a = '-' ∧ b = '-'
    · rw [replacePairs, if_pos h] at hc
      rcases List.mem_cons.mp hc with rfl | hc
      · simp [h.1]
      · exact List.mem_cons_of_mem _ (List.mem_cons_of_mem _ (replacePairs_subset rest c hc))
    · rw [replacePairs, if_neg h] at hc
      rcases List.mem_cons.mp hc with rfl | hc
      · simp
      · exact List.mem_cons_of_mem _ (replacePairs_subset (b :: rest) c hc)
termination_by l => l.length

theorem collapseLoop_noDouble (l : List Char) :
    hasDoubleDash (collapseLoop l) = false := by
  rw [collapseLoop_eq]
  by_cases h : hasDoubleDash l = true
  · rw [if_pos h]
    exact collapseLoop_noDouble (replacePairs l)
  · rw [if_neg h]
    exact Bool.not_eq_true _ ▸ (by simpa using h)
termination_by l.length
decreasing_by exact replacePairs_length_lt l h

theorem noDouble_tail {l : List Char} (h : hasDoubleDash l = false) :
    hasDoubleDash l.tail = false := by
  cases l with
  | nil => simp [hasDoubleDash]
  | cons a t =>
    cases t with
    | nil => simp [hasDoubleDash]
    | cons b r =>
      rw [hasDoubleDash_cons_cons] at h
      simp only [Bool.or_eq_false_iff] at h
      exact h.2

theorem noDouble_dropLast {l : List Char} (h : hasDoubleDash l = false) :
    hasDoubleDash l.dropLast = false := by
  induction l with
  | nil => simp [hasDoubleDash]
  | cons a t ih =>
    cases t with
    | nil => simp [hasDoubleDash]
    | cons b r =>
      rw [hasDoubleDash_cons_cons] at h
      simp only [Bool.or_eq_false_iff] at h
      have hbr := ih h.2
      rw [List.dropLast_cons₂]
      cases r with
      | nil => simp [hasDoubleDash]
      | cons c rs =>
        rw [List.dropLast_cons₂] at hbr ⊢
        rw [hasDoubleDash_cons_cons]
        simp only [Bool.or_eq_false_iff]
        exact ⟨h.1, hbr⟩

theorem endsWithDash_dropLast {l : List Char} (h1 : hasDoubleDash l = false)
    (h2 : endsWithDash l = true) : endsWithDash l.dropLast = false := by
  induction l with
  | nil => simp [endsWithDash] at h2
  | cons a t ih =>
    cases t with
    | nil =>
      simp [List.dropLast, endsWithDash]
    | cons b r =>
      rw [hasDoubleDash_cons_cons] at h1
      simp only [Bool.or_eq_false_iff] at h1
      have h2' : endsWithDash (b :: r) = true := h2
      rw [List.dropLast_cons₂]
      cases r with
      | nil =>
        have hb : b = '-' := by simpa [endsWithDash] using h2'
        subst hb
        have ha : (a == '-') = false := by simpa using h1.1
        simp [List.dropLast, endsWithDash, ha]
      | cons c rs =>
        have hrec := ih h1.2 h2'
        rw [List.dropLast_cons₂] at hrec ⊢
        rw [endsWithDash_cons a (b :: (c :: rs).dropLast) (by simp)]
        exact hrec

theorem toMekanismiURI_data (s : String) :
    (toMekanismiURI s).data =
      if endsWithDash (tmLoop s) = true then (tmLoop s).dropLast else tmLoop s := rfl

theorem toMekanismiURI_noDouble (s : String) :
    hasDoubleDash (toMekanismiURI s).data = false := by
  rw [toMekanismiURI_data]
  by_cases h : endsWithDash (tmLoop s) = true
  · rw [if_pos h]
    exact noDouble_dropLast (collapseLoop_noDouble _)
  · rw [if_neg h]
    exact collapseLoop_noDouble _

theorem toMekanismiURI_notEndsDash (s : String) :
    endsWithDash (toMekanismiURI s).data = false := by
  rw [toMekanismiURI_data]
  by_cases h : endsWithDash (tmLoop s) = true
  · rw [if_pos h]
    exact endsWithDash_dropLast (collapseLoop_noDouble _) h
  · rw [if_neg h]
    exact Bool.not_eq_true _ |>.mp h

theorem pathSegmentToFilename_def (p : String) :
    pathSegmentToFilename p =
      if (toMekanismiURI p).data.length = 0 ∨ (toMekanismiURI p).data = ['-'] then "index"
      else String.mk (psfStrip (toMekanismiURI p).data) := rfl

theorem psfStrip_props {sp : List Char} (hnd : hasDoubleDash sp = false)
    (hne : endsWithDash sp = false) (h0 : sp ≠ []) (h1 : sp ≠ ['-']) :
    psfStrip sp ≠ [] ∧ hasDoubleDash (psfStrip sp) = false ∧
      beginsWith ['-'] (psfStrip sp) = false ∧ endsWithDash (psfStrip sp) = false := by
  unfold psfStrip
  by_cases hb : beginsWith ['-'] sp = true
  · obtain ⟨t, rfl⟩ := (begins_dash_iff sp).mp hb
    have ht : t ≠ [] := by
      intro h
      exact h1 (by rw [h])
    obtain ⟨x, xs, rfl⟩ := List.exists_cons_of_ne_nil ht
    have hx : (x == '-') = false := by
      rw [hasDoubleDash_cons_cons] at hnd
      simpa using (Bool.or_eq_false_iff.mp hnd).1
    have hends : endsWithDash (x :: xs) = false := by
      rw [endsWithDash_cons '-' (x :: xs) (by simp)] at hne
      exact hne
    rw [if_pos hb]
    simp only [List.tail_cons]
    rw [if_neg (by simp [hends])]
    refine ⟨by simp, ?_, ?_, hends⟩
    · exact noDouble_tail hnd
    · simp only [beginsWith, hx]
      simp only [Bool.and_eq_false_iff, beq_eq_false_iff_ne, ne_eq]
      left
      intro h
      rw [← h] at hx
      simp at hx
  · rw [if_neg hb, if_neg (by simp [hne])]
    exact ⟨h0, hnd, by simpa using hb, hne⟩

theorem pathSegmentToFilename_props (p : String) :
    pathSegmentToFilename p ≠ "" ∧
      hasDoubleDash (pathSegmentToFilename p).data = false ∧
      beginsWith ['-'] (pathSegmentToFilename p).data = false ∧
      endsWithDash (pathSegmentToFilename p).data = false := by
  rw [pathSegmentToFilename_def]
  by_cases hc : (toMekanismiURI p).data.length = 0 ∨ (toMekanismiURI p).data = ['-']
  · rw [if_pos hc]
    exact ⟨by decide, by decide, by decide, by decide⟩
  · rw [if_neg hc]
    push_neg at hc
    have h0 : (toMekanismiURI p).data ≠ [] := by
      intro h
      exact hc.1 (by simp [h])
    have props := psfStrip_props (toMekanismiURI_noDouble p)
      (toMekanismiURI_notEndsDash p) h0 hc.2
    refine ⟨?_, props.2.1, props.2.2.1, props.2.2.2⟩
    intro h
    exact props.1 (congrArg String.data h)

theorem collapseLoop_allDash :
    ∀ l : List Char, (∀ c ∈ l, c = '-') →
      collapseLoop l = [] ∨ collapseLoop l = ['-'] := by
  intro l h
  rw [collapseLoop_eq]
  by_cases hdd : hasDoubleDash l = true
  · rw [if_pos hdd]
    exact collapseLoop_allDash (replacePairs l)
      (fun c hc => h c (replacePairs_subset l c hc))
  · rw [if_neg hdd]
    cases l with
    | nil => exact Or.inl rfl
    | cons a t =>
      cases t with
      | nil => exact Or.inr (by rw [h a (by simp)])
      | cons b r =>
        exfalso
        apply hdd
        rw [hasDoubleDash_cons_cons, h a (by simp), h b (by simp)]
        simp
termination_by l => l.length
decreasing_by exact replacePairs_length_lt l hdd

theorem pathSegmentToFilename_allSep (p : String)
    (h : ∀ c ∈ p.data, allowedChar c = false) :
    pathSegmentToFilename p = "index" := by
  have hmap : ∀ c ∈ p.data.map (fun c => if allowedChar c then c else '-'), c = '-' := by
    intro c hc
    obtain ⟨c0, hc0m, hc0⟩ := List.mem_map.mp hc
    rw [if_neg (by simp [h c0 hc0m])] at hc0
    exact hc0.symm
  have hcl := collapseLoop_allDash _ hmap
  have htm : (toMekanismiURI p).data = [] := by
    rw [toMekanismiURI_data]
    unfold tmLoop
    rcases hcl with h' | h'
    · rw [h']
      simp [endsWithDash]
    · rw [h']
      simp [endsWithDash]
  rw [pathSegmentToFilename_def, if_pos (Or.inl (by rw [htm]; rfl))]

end Rich

/-! ### Crawl-state invariants -/

theorem contains_iff (l : List String) (a : String) : l.contains a = true ↔ a ∈ l := by
  simp [List.contains]

theorem contains_eq_false_iff (l : List String) (a : String) :
    l.contains a = false ↔ a ∉ l := by
  simp [List.contains]

theorem nodupAppendSingleton {l : List String} {a : String} (h : l.Nodup)
    (hna : a ∉ l) : (l ++ [a]).Nodup := by
  rw [List.nodup_append]
  refine ⟨h, List.nodup_singleton a, ?_⟩
  intro x hx hxa
  rw [List.mem_singleton] at hxa
  exact hna (hxa ▸ hx)

theorem foldl_preserve {α β : Type} (P : α → Prop) (f : α → β → α)
    (h : ∀ a b, P a → P (f a b)) :
    ∀ (l : List β) (a : α), P a → P (l.foldl f a) := by
  intro l
  induction l with
  | nil => intro a ha; exact ha
  | cons b rest ih => intro a ha; exact ih (f a b) (h a b ha)

theorem count_append_singleton (l : List String) (v u : String) :
    (l ++ [v]).count u = l.count u + if v = u then 1 else 0 := by
  simp [List.count_append, List.count_cons]

namespace Rich

theorem downloadImage_visited (cfg : Config) (st : CrawlState) (url fn : String) :
    (downloadImage cfg st url fn).visited = st.visited := by
  unfold downloadImage
  split <;> rfl

theorem downloadImage_transforms (cfg : Config) (st : CrawlState) (url fn : String) :
    (downloadImage cfg st url fn).transforms = st.transforms := by
  unfold downloadImage
  split <;> rfl

theorem downloadImage_imageGets (cfg : Config) (st : CrawlState) (url fn : String) :
    (downloadImage cfg st url fn).imageGets = st.imageGets ++ [url] := by
  unfold downloadImage
  split <;> rfl

theorem downloadImage_imageDownloads (cfg : Config) (st : CrawlState) (url fn : String) :
    (downloadImage cfg st url fn).imageDownloads = st.imageDownloads := by
  unfold downloadImage
  split <;> rfl

theorem processImage_visited (cfg : Config) (fn : String)
    (acc : CrawlState × List ImgEl) (img : ImgEl) :
    (processImage cfg fn acc img).1.visited = acc.1.visited := by
  unfold processImage
  cases hs : img.src with
  | none => rfl
  | some s =>
    simp only
    by_cases h0 : s = ""
    · rw [if_pos h0]
    · rw [if_neg h0]
      by_cases hc : acc.1.imageDownloads.contains s = true
      · simp only [hc, if_true]
      · simp only [hc, Bool.false_eq_true, if_false]
        simp [downloadImage_visited]

theorem processImage_transforms (cfg : Config) (fn : String)
    (acc : CrawlState × List ImgEl) (img : ImgEl) :
    (processImage cfg fn acc img).1.transforms = acc.1.transforms := by
  unfold processImage
  cases hs : img.src with
  | none => rfl
  | some s =>
    simp only
    by_cases h0 : s = ""
    · rw [if_pos h0]
    · rw [if_neg h0]
      by_cases hc : acc.1.imageDownloads.contains s = true
      · simp only [hc, if_true]
      · simp only [hc, Bool.false_eq_true, if_false]
        simp [downloadImage_transforms]

theorem processImage_count_step (cfg : Config) (fn u : String) (base : Nat)
    (acc : CrawlState × List ImgEl) (img : ImgEl)
    (h : acc.1.imageGets.count u = base ∨
      (acc.1.imageGets.count u = base + 1 ∧ u ∈ acc.1.imageDownloads)) :
    (processImage cfg fn acc img).1.imageGets.count u = base ∨
      ((processImage cfg fn acc img).1.imageGets.count u = base + 1 ∧
        u ∈ (processImage cfg fn acc img).1.imageDownloads) := by
  unfold processImage
  cases hs : img.src with
  | none => exact h
  | some s =>
    simp only
    by_cases h0 : s = ""
    · rw [if_pos h0]
      exact h
    · rw [if_neg h0]
      by_cases hc : acc.1.imageDownloads.contains s = true
      · simp only [hc, if_true]
        exact h
      · simp only [hc, Bool.false_eq_true, if_false]
        have hmem : s ∉ acc.1.imageDownloads :=
          (contains_eq_false_iff _ _).mp (by simpa using hc)
        by_cases hsu : s = u
        · subst hsu
          rcases h with h | h
          · right
            constructor
            · simp only [downloadImage_imageGets]
              rw [count_append_singleton, h]
              simp
            · simp only [downloadImage_imageDownloads]
              exact List.mem_append_right _ (by simp)
          · exact absurd h.2 hmem
        · rcases h with h | h
          · left
            simp only [downloadImage_imageGets]
            rw [count_append_singleton, h]
            simp [hsu]
          · right
            constructor
            · simp only [downloadImage_imageGets]
              rw [count_append_singleton, h.1]
              simp [hsu]
            · simp only [downloadImage_imageDownloads]
              exact List.mem_append_left _ h.2

theorem processImage_count_done_step (cfg : Config) (fn u : String) (base : Nat)
    (acc : CrawlState × List ImgEl) (img : ImgEl)
    (h : acc.1.imageGets.count u = base ∧ u ∈ acc.1.imageDownloads) :
    (processImage cfg fn acc img).1.imageGets.count u = base ∧
      u ∈ (processImage cfg fn acc img).1.imageDownloads := by
  unfold processImage
  cases hs : img.src with
  | none => exact h
  | some s =>
    simp only
    by_cases h0 : s = ""
    · rw [if_pos h0]
      exact h
    · rw [if_neg h0]
      by_cases hc : acc.1.imageDownloads.contains s = true
      · simp only [hc, if_true]
        exact h
      · simp only [hc, Bool.false_eq_true, if_false]
        have hmem : s ∉ acc.1.imageDownloads :=
          (contains_eq_false_iff _ _).mp (by simpa using hc)
        by_cases hsu : s = u
        · exact absurd (hsu ▸ h.2) hmem
        · constructor
          · simp only [downloadImage_imageGets]
            rw [count_append_singleton, h.1]
            simp [hsu]
          · simp only [downloadImage_imageDownloads]
            exact List.mem_append_left _ h.2

theorem processImages_visited (cfg : Config) (fn : String) (st : CrawlState)
    (imgs : List ImgEl) :
    (processImages cfg fn st imgs).1.visited = st.visited := by
  unfold processImages
  have := foldl_preserve (fun (acc : CrawlState × List ImgEl) => acc.1.visited = st.visited)
    (processImage cfg fn)
    (fun acc img hP => by
      show (processImage cfg fn acc img).1.visited = st.visited
      rw [processImage_visited]
      exact hP)
    imgs (st, []) rfl
  exact this

theorem processImages_transforms (cfg : Config) (fn : String) (st : CrawlState)
    (imgs : List ImgEl) :
    (processImages cfg fn st imgs).1.transforms = st.transforms := by
  unfold processImages
  exact foldl_preserve (fun (acc : CrawlState × List ImgEl) => acc.1.transforms = st.transforms)
    (processImage cfg fn)
    (fun acc img hP => by
      show (processImage cfg fn acc img).1.transforms = st.transforms
      rw [processImage_transforms]
      exact hP)
    imgs (st, []) rfl

theorem processImages_count_le (cfg : Config) (fn : String) (st : CrawlState)
    (imgs : List ImgEl) (u : String) :
    (processImages cfg fn st imgs).1.imageGets.count u ≤ st.imageGets.count u + 1 := by
  unfold processImages
  have h := foldl_preserve
    (fun (acc : CrawlState × List ImgEl) =>
      acc.1.imageGets.count u = st.imageGets.count u ∨
        (acc.1.imageGets.count u = st.imageGets.count u + 1 ∧
          u ∈ acc.1.imageDownloads))
    (processImage cfg fn)
    (fun acc img hP => processImage_count_step cfg fn u (st.imageGets.count u) acc img hP)
    imgs (st, []) (Or.inl rfl)
  rcases h with h | h
  · rw [h]
    exact Nat.le_succ _
  · rw [h.1]

theorem processImages_count_done (cfg : Config) (fn : String) (st : CrawlState)
    (imgs : List ImgEl) (u : String) (hu : u ∈ st.imageDownloads) :
    (processImages cfg fn st imgs).1.imageGets.count u = st.imageGets.count u := by
  unfold processImages
  exact (foldl_preserve
    (fun (acc : CrawlState × List ImgEl) =>
      acc.1.imageGets.count u = st.imageGets.count u ∧ u ∈ acc.1.imageDownloads)
    (processImage cfg fn)
    (fun acc img hP => processImage_count_done_step cfg fn u (st.imageGets.count u) acc img hP)
    imgs (st, []) ⟨rfl, hu⟩).1

theorem dasp_visited (cfg : Config) (st : CrawlState) (url fn : String) :
    (downloadAndSavePage cfg st url fn).visited = st.visited := by
  unfold downloadAndSavePage
  cases hnet : cfg.net url with
  | none => rfl
  | some d =>
    simp only
    rw [processImages_visited]

theorem dasp_transforms (cfg : Config) (st : CrawlState) (url fn : String) :
    (downloadAndSavePage cfg st url fn).transforms = st.transforms := by
  unfold downloadAndSavePage
  cases hnet : cfg.net url with
  | none => rfl
  | some d =>
    simp only
    rw [processImages_transforms]

theorem dasp_count_le (cfg : Config) (st : CrawlState) (url fn u : String) :
    (downloadAndSavePage cfg st url fn).imageGets.count u ≤ st.imageGets.count u + 1 := by
  unfold downloadAndSavePage
  cases hnet : cfg.net url with
  | none => exact Nat.le_succ _
  | some d =>
    simp only
    exact processImages_count_le cfg fn { st with pageGets := st.pageGets ++ [url] } d.imgs u

theorem dasp_count_done (cfg : Config) (st : CrawlState) (url fn u : String)
    (hu : u ∈ st.imageDownloads) :
    (downloadAndSavePage cfg st url fn).imageGets.count u = st.imageGets.count u := by
  unfold downloadAndSavePage
  cases hnet : cfg.net url with
  | none => rfl
  | some d =>
    simp only
    exact processImages_count_done cfg fn { st with pageGets := st.pageGets ++ [url] }
      d.imgs u hu

theorem crawlChildren_pres (P : CrawlState → Prop) (cfg : Config)
    (recurse : CrawlState → String → CrawlState) (links : List String)
    (hrec : ∀ s u, P s → P (recurse s u)) :
    ∀ st, P st → P (crawlChildren cfg recurse links st) := by
  intro st hP
  unfold crawlChildren
  refine foldl_preserve P _ ?_ links st hP
  intro s link hs
  by_cases hm : matchesDomainRegex cfg.domain link = true
  · simp only [hm, if_true]
    exact hrec s (absolutize link) hs
  · simp only [hm, Bool.false_eq_true, if_false]
    exact hs

theorem crawlDiscover_pres (P : CrawlState → Prop) (cfg : Config)
    (recurse : CrawlState → String → CrawlState) (url : String)
    (hrec : ∀ s u, P s → P (recurse s u))
    (hpg : ∀ (s : CrawlState) (x : List String), P s → P { s with pageGets := x })
    (her : ∀ (s : CrawlState) (x : List String), P s → P { s with errors := x }) :
    ∀ st, P st → P (crawlDiscover cfg recurse st url) := by
  intro st hP
  unfold crawlDiscover
  cases hnet : cfg.net url with
  | none => exact her _ _ (hpg _ _ hP)
  | some d =>
    simp only
    exact crawlChildren_pres P cfg recurse _ hrec _ (hpg _ _ hP)

theorem crawl_ceiling_noop (cfg : Config) (n : Nat) (bf : String) (st : CrawlState)
    (url : String) (h : cfg.maxPages ≤ st.visited.length) :
    crawl cfg n bf st url = st := by
  cases n with
  | zero => rfl
  | succ n => simp only [crawl, if_pos h]

theorem crawl_visitedHit_noop (cfg : Config) (n : Nat) (bf : String) (st : CrawlState)
    (url : String) (h : st.visited.contains (fnameOf url) = true) :
    crawl cfg n bf st url = st := by
  cases n with
  | zero => rfl
  | succ n =>
    by_cases hA : cfg.maxPages ≤ st.visited.length
    · simp only [crawl, if_pos hA]
    · simp only [crawl, if_neg hA, h, if_true]

theorem crawl_visited_mono (cfg : Config) :
    ∀ (n : Nat) (bf : String) (st : CrawlState) (url x : String),
      x ∈ st.visited → x ∈ (crawl cfg n bf st url).visited := by
  intro n
  induction n with
  | zero => intro bf st url x hx; exact hx
  | succ n ih =>
    intro bf st url x hx
    by_cases hA : cfg.maxPages ≤ st.visited.length
    · rw [crawl_ceiling_noop cfg _ bf st url hA]
      exact hx
    · by_cases hB : st.visited.contains (fnameOf url) = true
      · rw [crawl_visitedHit_noop cfg _ bf st url hB]
        exact hx
      · simp only [crawl, if_neg hA, hB, Bool.false_eq_true, if_false]
        by_cases hC : ignorePatterns.any (fun pat => includesStr (fnameOf url) pat) = true
        · simp only [hC, if_true]
          exact List.mem_append_left _ hx
        · simp only [hC, Bool.false_eq_true, if_false]
          refine crawlDiscover_pres (fun s => x ∈ s.visited) cfg _ url ?_ ?_ ?_ _ ?_
          · intro s u hs
            exact ih _ s u x hs
          · intro s xs hs
            exact hs
          · intro s xs hs
            exact hs
          · dsimp only
            rw [dasp_visited]
            exact List.mem_append_left _ hx

theorem crawl_invTrans (cfg : Config) :
    ∀ (n : Nat) (bf : String) (st : CrawlState) (url : String),
      InvTrans st → InvTrans (crawl cfg n bf st url) := by
  intro n
  induction n with
  | zero => intro bf st url h; exact h
  | succ n ih =>
    intro bf st url h
    by_cases hA : cfg.maxPages ≤ st.visited.length
    · rw [crawl_ceiling_noop cfg _ bf st url hA]
      exact h
    · by_cases hB : st.visited.contains (fnameOf url) = true
      · rw [crawl_visitedHit_noop cfg _ bf st url hB]
        exact h
      · simp only [crawl, if_neg hA, hB, Bool.false_eq_true, if_false]
        by_cases hC : ignorePatterns.any (fun pat => includesStr (fnameOf url) pat) = true
        · simp only [hC, if_true]
          exact ⟨h.1, fun f hf => List.mem_append_left _ (h.2 f hf)⟩
        · simp only [hC, Bool.false_eq_true, if_false]
          refine crawlDiscover_pres (fun s => InvTrans s) cfg _ url ?_ ?_ ?_ _ ?_
          · intro s u hs
            exact ih _ s u hs
          · exact fun s xs hs => hs
          · exact fun s xs hs => hs
          · dsimp only
            have hB' : fnameOf url ∉ st.visited := by
              rw [← contains_eq_false_iff]
              simpa using hB
            have hnt : fnameOf url ∉ st.transforms := fun hin => hB' (h.2 _ hin)
            unfold InvTrans
            rw [dasp_visited, dasp_transforms]
            constructor
            · exact nodupAppendSingleton h.1 hnt
            · intro f hf
              rcases List.mem_append.mp hf with hf | hf
              · exact List.mem_append_left _ (h.2 f hf)
              · rw [List.mem_singleton] at hf
                subst hf
                exact List.mem_append_right _ (by simp)

theorem crawl_visits (cfg : Config) (n : Nat) (bf : String) (st : CrawlState)
    (url : String) :
    (crawl cfg (n + 1) bf st url).visited.contains (fnameOf url) = true ∨
      cfg.maxPages ≤ (crawl cfg (n + 1) bf st url).visited.length := by
  by_cases hA : cfg.maxPages ≤ st.visited.length
  · right
    rw [crawl_ceiling_noop cfg _ bf st url hA]
    exact hA
  · by_cases hB : st.visited.contains (fnameOf url) = true
    · left
      rw [crawl_visitedHit_noop cfg _ bf st url hB]
      exact hB
    · left
      simp only [crawl, if_neg hA, hB, Bool.false_eq_true, if_false]
      by_cases hC : ignorePatterns.any (fun pat => includesStr (fnameOf url) pat) = true
      · simp only [hC, if_true]
        rw [contains_iff]
        exact List.mem_append_right _ (by simp)
      · simp only [hC, Bool.false_eq_true, if_false]
        rw [contains_iff]
        refine crawlDiscover_pres (fun s => fnameOf url ∈ s.visited) cfg _ url ?_ ?_ ?_ _ ?_
        · intro s u hs
          exact crawl_visited_mono cfg n _ s u _ hs
        · exact fun s xs hs => hs
        · exact fun s xs hs => hs
        · dsimp only
          rw [dasp_visited]
          exact List.mem_append_right _ (by simp)

end Rich

/-! ### Claims C5 to C10 -/

/-- C5, counterexample: the membership check and the insert on
    `imageDownloads` are separated by an `await`, so they are not atomic.
    In the simple variant every `$('img').each` callback tests membership
    before any callback's `add` has run, so one page referencing the same
    image URL twice starts two `downloadImage` GETs.  In the richer variant
    the `has`/`add` pair sits around the awaited download, and
    `downloadAndSavePage` resolves before its stream `end` handler runs, so
    the handlers of two concurrently crawled pages referencing the same URL
    can both pass the membership test before either insert: the URL is
    fetched twice in one crawl run even though the final download set holds
    it once. -/
theorem c5_counterexample_duplicate_image_downloads :
    (Simple.downloadAndSavePageEnd [] "results/example.com/index.mdx" dupImgDoc).imageGets.count
        "https://example.com/a.png" = 2 ∧
      (Rich.imagePairInterleaved [] "https://example.com/a.png"
          "https://example.com/a.png").1.count "https://example.com/a.png" = 2 ∧
      (Rich.imagePairInterleaved [] "https://example.com/a.png"
          "https://example.com/a.png").2 = ["https://example.com/a.png"] := by
  refine ⟨by decide, by decide, by decide⟩

/-- C5 (amended to a single handler of the richer variant): within one
    stream `end` handler, whose image loop awaits each download before the
    next membership test, an image source URL is downloaded at most once,
    however often it occurs on the page — and not at all when it is already
    in `imageDownloads` when the handler starts.  Across concurrently
    crawled pages the check-and-insert is not atomic and the guarantee
    fails; see the counterexample. -/
theorem c5_amended_rich_image_download_once_per_page
    (cfg : Rich.Config) (st : Rich.CrawlState) (url fn u : String) :
    (Rich.downloadAndSavePage cfg st url fn).imageGets.count u ≤
        st.imageGets.count u + 1 ∧
      (u ∈ st.imageDownloads →
        (Rich.downloadAndSavePage cfg st url fn).imageGets.count u =
          st.imageGets.count u) :=
  ⟨Rich.dasp_count_le cfg st url fn u, fun hu => Rich.dasp_count_done cfg st url fn u hu⟩

/-- C5 witness: one handler run on a concrete page fetches a given image URL
    at most once beyond the caller's log from the initial state, and not at
    all from a state whose download set already holds the URL. -/
theorem c5_amended_witness :
    (Rich.downloadAndSavePage exCfg Rich.initState "https://example.com"
          "results/example.com/index.md").imageGets.count "https://example.com/a.png" ≤
        Rich.initState.imageGets.count "https://example.com/a.png" + 1 ∧
      (Rich.downloadAndSavePage exCfg preSt "https://example.com"
          "results/example.com/index.md").imageGets.count "https://example.com/a.png" =
        preSt.imageGets.count "https://example.com/a.png" :=
  ⟨(c5_amended_rich_image_download_once_per_page exCfg Rich.initState "https://example.com"
      "results/example.com/index.md" "https://example.com/a.png").1,
    (c5_amended_rich_image_download_once_per_page exCfg preSt "https://example.com"
      "results/example.com/index.md" "https://example.com/a.png").2 (by decide)⟩

/-- C6: a logical page, identified by its computed filename, is fetched and
    transformed at most once per crawl run: a filename already in the visited
    set makes `crawl` return its state unchanged (no fetch, no recursion),
    and in any run from the initial state the fetch-and-transform log has no
    duplicate filename and only filenames already inserted into the visited
    set. -/
theorem c6_page_fetched_and_transformed_at_most_once :
    (∀ (cfg : Rich.Config) (n : Nat) (bf : String) (st : Rich.CrawlState) (url : String),
      st.visited.contains (Rich.fnameOf url) = true → Rich.crawl cfg n bf st url = st) ∧
      (∀ (cfg : Rich.Config) (n : Nat) (bf url : String),
        (Rich.crawl cfg n bf Rich.initState url).transforms.Nodup ∧
          ∀ f ∈ (Rich.crawl cfg n bf Rich.initState url).transforms,
            f ∈ (Rich.crawl cfg n bf Rich.initState url).visited) := by
  constructor
  · exact fun cfg n bf st url h => Rich.crawl_visitedHit_noop cfg n bf st url h
  · intro cfg n bf url
    exact Rich.crawl_invTrans cfg n bf Rich.initState url
      ⟨List.nodup_nil, by intro f hf; simp [Rich.initState] at hf⟩

/-- C6 witness: an already visited filename is skipped without any state
    change, and a concrete two-page run transforms each filename once. -/
theorem c6_witness :
    Rich.crawl failCfg 1 "results/example.com" visitedSt "https://example.com" = visitedSt ∧
      (Rich.crawl exCfg 2 "results/example.com" Rich.initState
          "https://example.com").transforms.Nodup := by
  constructor
  · exact c6_page_fetched_and_transformed_at_most_once.1 failCfg 1 "results/example.com"
      visitedSt "https://example.com" (by decide)
  · exact (c6_page_fetched_and_transformed_at_most_once.2 exCfg 2 "results/example.com"
      "https://example.com").1

/-- C7: fetch failures are local.  A failed page GET leaves
    `downloadAndSavePage` returning the caller's state with only the fetch
    attempt and a logged error added — no write, no set change, no exception;
    a failed image GET does the same in `downloadImage`; and sibling
    traversal composes past any such node, since the anchor walk is a fold
    that continues with whatever state the earlier siblings produced. -/
theorem c7_fetch_failures_are_local :
    (∀ (cfg : Rich.Config) (st : Rich.CrawlState) (url fn : String), cfg.net url = none →
      Rich.downloadAndSavePage cfg st url fn =
        { st with pageGets := st.pageGets ++ [url],
                  errors := st.errors ++ ["Failed to download and save " ++ url] }) ∧
      (∀ (cfg : Rich.Config) (st : Rich.CrawlState) (url fn : String), cfg.imgNet url = false →
        Rich.downloadImage cfg st url fn =
          { st with imageGets := st.imageGets ++ [url],
                    errors := st.errors ++ ["Failed to download image " ++ url] }) ∧
      (∀ (cfg : Rich.Config) (recurse : Rich.CrawlState → String → Rich.CrawlState)
          (l₁ l₂ : List String) (st : Rich.CrawlState),
        Rich.crawlChildren cfg recurse (l₁ ++ l₂) st =
          Rich.crawlChildren cfg recurse l₂ (Rich.crawlChildren cfg recurse l₁ st)) := by
  refine ⟨?_, ?_, ?_⟩
  · intro cfg st url fn h
    unfold Rich.downloadAndSavePage
    rw [h]
  · intro cfg st url fn h
    unfold Rich.downloadImage
    rw [if_neg (by simp [h])]
  · intro cfg recurse l₁ l₂ st
    unfold Rich.crawlChildren
    rw [List.foldl_append]

/-- C7 witness: the failure equations evaluated on the all-failing network. -/
theorem c7_witness :
    Rich.downloadAndSavePage failCfg Rich.initState "https://example.com/x"
        "results/example.com/x.md" =
      { Rich.initState with
          pageGets := ["https://example.com/x"],
          errors := ["Failed to download and save https://example.com/x"] } ∧
      Rich.downloadImage failCfg Rich.initState "https://example.com/a.png"
          "results/example.com/a.png" =
        { Rich.initState with
            imageGets := ["https://example.com/a.png"],
            errors := ["Failed to download image https://example.com/a.png"] } := by
  constructor
  · exact c7_fetch_failures_are_local.1 failCfg Rich.initState "https://example.com/x"
      "results/example.com/x.md" rfl
  · exact c7_fetch_failures_are_local.2.1 failCfg Rich.initState "https://example.com/a.png"
      "results/example.com/a.png" rfl

/-- C8: a discovered link whose computed filename contains a configured
    ignore pattern is added to the visited set and nothing else happens: no
    fetch, no write, and every other component of the crawl state (the image
    download set, all logs, all files) is unchanged. -/
theorem c8_ignored_link_marks_visited_only
    (cfg : Rich.Config) (n : Nat) (bf : String) (st : Rich.CrawlState) (url : String)
    (hceil : ¬cfg.maxPages ≤ st.visited.length)
    (hnew : st.visited.contains (Rich.fnameOf url) = false)
    (hign : Rich.ignorePatterns.any
      (fun pat => includesStr (Rich.fnameOf url) pat) = true) :
    Rich.crawl cfg (n + 1) bf st url =
      { st with visited := st.visited ++ [Rich.fnameOf url] } := by
  have hB : ¬st.visited.contains (Rich.fnameOf url) = true := by
    rw [hnew]
    exact Bool.false_ne_true
  rw [Rich.crawl.eq_2, if_neg hceil, if_neg hB]
  dsimp only
  rw [if_pos hign]

/-- C8 witness: the filename `Foo-edit.md` contains the configured pattern
    `-edit`; crawling it only marks it visited. -/
theorem c8_witness :
    Rich.crawl smallCfg 3 "results/example.com" Rich.initState
        "https://example.com/Foo-edit" =
      { Rich.initState with visited := ["Foo-edit.md"] } := by
  exact c8_ignored_link_marks_visited_only smallCfg 2 "results/example.com" Rich.initState
    "https://example.com/Foo-edit" (by decide) (by decide) (by decide)

/-- C9: once the number of distinct visited pages reaches the ceiling, a
    crawl invocation returns its state unchanged — nothing further is
    fetched, transformed or written, and files written so far (the `files`
    component) are untouched; folding any list of further candidate URLs
    through `crawl` also leaves the state unchanged. -/
theorem c9_ceiling_halts_all_fetching :
    (∀ (cfg : Rich.Config) (n : Nat) (bf : String) (st : Rich.CrawlState) (url : String),
      cfg.maxPages ≤ st.visited.length → Rich.crawl cfg n bf st url = st) ∧
      (∀ (cfg : Rich.Config) (n : Nat) (bf : String) (st : Rich.CrawlState)
          (urls : List String), cfg.maxPages ≤ st.visited.length →
        urls.foldl (fun s u => Rich.crawl cfg n bf s u) st = st) := by
  constructor
  · exact fun cfg n bf st url h => Rich.crawl_ceiling_noop cfg n bf st url h
  · intro cfg n bf st urls h
    induction urls with
    | nil => rfl
    | cons u rest ih =>
      rw [List.foldl_cons, Rich.crawl_ceiling_noop cfg n bf st u h]
      exact ih

/-- C9 witness: with a ceiling of one page and one page already visited, a
    crawl invocation and a two-candidate fold both leave the state alone. -/
theorem c9_witness :
    Rich.crawl oneCfg 3 "results/example.com" visitedSt "https://example.com/Foo" =
        visitedSt ∧
      (["https://example.com/A", "https://example.com/B"].foldl
          (fun s u => Rich.crawl oneCfg 3 "results/example.com" s u) visitedSt) =
        visitedSt := by
  constructor
  · exact c9_ceiling_halts_all_fetching.1 oneCfg 3 "results/example.com" visitedSt
      "https://example.com/Foo" (by decide)
  · exact c9_ceiling_halts_all_fetching.2 oneCfg 3 "results/example.com" visitedSt
      ["https://example.com/A", "https://example.com/B"] (by decide)

/-- C10: deduplication is keyed on the computed filename, not the URL: for
    two distinct URLs whose paths normalise to the same filename, crawling
    the second after the first returns the state of the first crawl
    unchanged — no fetch, no write, no link discovery, and no overwrite of
    the first page's file. -/
theorem c10_filename_keyed_dedup
    (cfg : Rich.Config) (bf1 bf2 : String) (n m : Nat) (st : Rich.CrawlState)
    (url1 url2 : String) (hne : url1 ≠ url2)
    (hfn : Rich.fnameOf url1 = Rich.fnameOf url2) :
    Rich.crawl cfg m bf2 (Rich.crawl cfg (n + 1) bf1 st url1) url2 =
      Rich.crawl cfg (n + 1) bf1 st url1 := by
  rcases Rich.crawl_visits cfg n bf1 st url1 with h | h
  · rw [hfn] at h
    exact Rich.crawl_visitedHit_noop cfg m bf2 _ url2 h
  · exact Rich.crawl_ceiling_noop cfg m bf2 _ url2 h

/-- C10 witness: `/Foo-Bar` and `/Foo!Bar` are distinct URLs with the same
    computed filename `Foo-Bar.md`; the second crawl is a no-op. -/
theorem c10_witness :
    Rich.crawl failCfg 1 "results/example.com"
        (Rich.crawl failCfg 1 "results/example.com" Rich.initState
          "https://example.com/Foo-Bar") "https://example.com/Foo!Bar" =
      Rich.crawl failCfg 1 "results/example.com" Rich.initState
        "https://example.com/Foo-Bar" := by
  exact c10_filename_keyed_dedup failCfg "results/example.com" "results/example.com" 0 1
    Rich.initState "https://example.com/Foo-Bar" "https://example.com/Foo!Bar"
    (by decide) (by decide)

/-! ### Claims C3 and C4 -/

/-- C3, counterexample: the claim says `normalize` returns the stem `index`
    for the root path `/`, but the simple variant's `pathSegmentToFilename`
    collapses and strips dashes before transliterating, so the root path `/`
    becomes `-` after transliteration, survives the emptiness test, and is
    then stripped to the empty string. -/
theorem c3_counterexample_simple_root_path_empty_stem :
    extractLocalPathFromUrl "https://example.com" = some "/" ∧
      Simple.normalizeStem "https://example.com" = "" ∧ "" ≠ "index" := by
  refine ⟨by decide, by decide, by decide⟩

/-- C3 (amended to the richer variant): `pathSegmentToFilename` of
    `src/unnamed/part_000` never returns an empty stem, and returns the
    literal stem `index` when the URL is unparsable, when its path is the
    root path `/`, and when its path consists only of characters outside the
    allowed class (which all transliterate to separators). -/
theorem c3_amended_rich_normalize_index_cases :
    (∀ url : String, Rich.normalizeStem url ≠ "") ∧
      (∀ url : String, extractLocalPathFromUrl url = none →
        Rich.normalizeStem url = "index") ∧
      (∀ url : String, extractLocalPathFromUrl url = some "/" →
        Rich.normalizeStem url = "index") ∧
      (∀ (url p : String), extractLocalPathFromUrl url = some p →
        (∀ c ∈ p.data, Rich.allowedChar c = false) →
        Rich.normalizeStem url = "index") := by
  refine ⟨?_, ?_, ?_, ?_⟩
  · intro url
    exact (Rich.pathSegmentToFilename_props _).1
  · intro url h
    unfold Rich.normalizeStem
    rw [h]
    decide
  · intro url h
    unfold Rich.normalizeStem
    rw [h]
    decide
  · intro url p h hsep
    unfold Rich.normalizeStem
    rw [h]
    exact Rich.pathSegmentToFilename_allSep p hsep

/-- C3 witness: the amended theorem evaluated at a parsable root URL, an
    unparsable URL, and a path of only disallowed characters. -/
theorem c3_amended_witness :
    Rich.normalizeStem "https://example.com" = "index" ∧
      Rich.normalizeStem "not a url" = "index" ∧
      Rich.normalizeStem "https://example.com/%%%" = "index" := by
  refine ⟨?_, ?_, ?_⟩
  · exact c3_amended_rich_normalize_index_cases.2.2.1 "https://example.com" (by decide)
  · exact c3_amended_rich_normalize_index_cases.2.1 "not a url" (by decide)
  · exact c3_amended_rich_normalize_index_cases.2.2.2 "https://example.com/%%%" "/%%%"
      (by decide) (by decide)

/-- C4, counterexample: the claim says the produced filename has no two
    adjacent separators and no leading separator, but the simple variant
    collapses and strips dashes before transliteration, so `/a!!b` becomes
    `a--b` and `//a` becomes `-a`. -/
theorem c4_counterexample_simple_consecutive_dashes :
    Simple.pathSegmentToFilename "/a!!b" = "a--b" ∧
      hasDoubleDash "a--b".data = true ∧
      Simple.pathSegmentToFilename "//a" = "-a" ∧
      beginsWith ['-'] "-a".data = true := by
  refine ⟨by decide, by decide, by decide, by decide⟩

/-! ### Absolute same-domain URLs and the richer variant's rewrite -/

namespace Rich

end Rich

/-- C4 (amended to the richer variant): for every input path, the filename
    stem produced by `pathSegmentToFilename` of `src/unnamed/part_000`
    contains no two adjacent separator characters and neither starts nor
    ends with a separator. -/
theorem c4_amended_rich_filename_separator_shape (p : String) :
    hasDoubleDash (Rich.pathSegmentToFilename p).data = false ∧
      beginsWith ['-'] (Rich.pathSegmentToFilename p).data = false ∧
      endsWithDash (Rich.pathSegmentToFilename p).data = false :=
  ⟨(Rich.pathSegmentToFilename_props p).2.1,
    (Rich.pathSegmentToFilename_props p).2.2.1,
    (Rich.pathSegmentToFilename_props p).2.2.2⟩

/-! ### Claims C1 and C2 -/

/-- C1 (code bug in the simple variant): the claim says the unit persisted is
    the rewritten Markdown, written once per filename and never overwritten
    with non-Markdown content.  Evaluating the simple variant's `end` handler
    at a successfully fetched empty page shows the file is written twice and
    the second write (line 63, under the comment `Save the modified markdown
    content`) stores the HTML serialisation `$.html()`, not Markdown; the
    richer variant, evaluated at the same page, writes the converted Markdown
    exactly once. -/
theorem c1_simple_overwrites_markdown_with_html :
    (Simple.downloadAndSavePageEnd [] "results/example.com/index.mdx" plainDoc).files =
      [("results/example.com/index.mdx", PageContent.markdownOf plainDoc none),
       ("results/example.com/index.mdx", PageContent.htmlOf plainDoc)] ∧
      ((Simple.downloadAndSavePageEnd [] "results/example.com/index.mdx" plainDoc).files.map
        (fun f => f.2.isMarkdown)) = [true, false] ∧
      (Rich.downloadAndSavePage plainCfg Rich.initState "https://example.com"
          "results/example.com/index.md").files =
        [("results/example.com/index.md", PageContent.markdownOf plainDoc (some "body"))] := by
  refine ⟨by decide, by decide, by decide⟩

end Crawler
